import Mathlib

set_option maxRecDepth 100000

/-!
Shallow embedding of the core of the `qnet_ll_sim` quantum-network
simulator: the physical topology with its `distance` and `fidelity`
queries (`physical_topology.rs`), the simulation event type with its
reversed ordering (`event.rs`), and the network event handler for EPR
generation (`network.rs`).

Rust `u32`/`u64` identifiers and times are embedded as `Nat`; `f64`
quantities (distances, fidelities, rates) are embedded as `ℚ`, which is
exact on every value the claims touch (small integers and one-digit
decimals, on which `f64` addition and comparison are also exact).
Fallible Rust functions returning `anyhow::Result` are embedded as
`Except`; panics are embedded as `Option` with `none` for a panic.
-/

set_option autoImplicit false

namespace QnetSim

/-- Role of a NIC endpoint of a logical link.  Modelled from the spec:
`nic.rs` is not among the sources; the spec fixes the roles to Master and
Slave. -/
inductive Role where
  | Master
  | Slave
deriving DecidableEq

/-- Node type of a physical node: satellite or on-ground station
(`physical_topology.rs`, `NodeType`). -/
inductive NodeType where
  | SAT
  | OGS
deriving DecidableEq

/-- Attributes of a physical node (`physical_topology.rs`, `NodeWeight`). -/
structure NodeWeight where
  node_type : NodeType
  memory_qubits : Nat
  decay_rate : ℚ
  swapping_success_prob : ℚ
  detectors : Nat
  transmitters : Nat
  capacity : ℚ
deriving DecidableEq

/-- Default node weight (`impl Default for NodeWeight`). -/
instance : Inhabited NodeWeight :=
  ⟨{ node_type := NodeType.SAT
     memory_qubits := 1
     decay_rate := 0
     swapping_success_prob := 1
     detectors := 1
     transmitters := 1
     capacity := 1 }⟩

/-- Attribute of a physical edge: the distance in metres
(`physical_topology.rs`, `EdgeWeight`). -/
structure EdgeWeight where
  distance : ℚ
deriving DecidableEq

/-- Fixed fidelity table (`physical_topology.rs`, `StaticFidelities`). -/
structure StaticFidelities where
  f_o : ℚ
  f_g : ℚ
  f_oo : ℚ
  f_og : ℚ
  f_gg : ℚ
deriving DecidableEq

/-- Default fidelities, all 1 (`impl Default for StaticFidelities`). -/
instance : Inhabited StaticFidelities :=
  ⟨{ f_o := 1, f_g := 1, f_oo := 1, f_og := 1, f_gg := 1 }⟩

/-- Failure modes of the physical-topology queries.  The Rust code raises
`anyhow` errors carrying messages; only the failure mode is kept here. -/
inductive TopoError where
  | UnknownNode
  | NoTransmitters
  | SameReceiver
  | NotASatellite
  | MissingEdge
  | Disconnected
  | NegativeCycle
deriving DecidableEq

/-- Undirected graph of the physical topology (`physical_topology.rs`,
`PhysicalTopology`).  A `petgraph` undirected graph is embedded as the
list of node weights, indexed by the compact node identifier, and the
list of undirected edges in insertion order.  The lazy `paths` cache is
omitted: the topology is immutable after construction, so the cached
entries always equal a fresh Bellman-Ford run and the cache is
semantically transparent. -/
structure PhysicalTopology where
  nodes : List NodeWeight
  edges : List (Nat × Nat × EdgeWeight)
  fidelities : StaticFidelities
deriving DecidableEq

namespace PhysicalTopology

/-- Weight of node `i` (meaningful only when `i` is a valid index, which
every use below checks first, as the `valid_node!` macro does). -/
def nodeW (pt : PhysicalTopology) (i : Nat) : NodeWeight :=
  pt.nodes.getD i default

/-- Presence of an undirected edge between `a` and `b`
(`petgraph`'s `find_edge` on an undirected graph matches either
orientation of a stored edge). -/
def hasEdge (pt : PhysicalTopology) (a b : Nat) : Bool :=
  pt.edges.any fun e => (e.1 == a && e.2.1 == b) || (e.1 == b && e.2.1 == a)

/-- Initial fidelity of the EPR pairs generated by transmitter `tx`
towards receivers `u` and `v` (`PhysicalTopology::fidelity`).  The checks
appear in the order of the Rust code: node validity of `tx`, `u`, `v`,
then transmitter presence, then receiver distinctness, then the SAT
check, then the per-branch edge requirements. -/
def fidelity (pt : PhysicalTopology) (tx u v : Nat) : Except TopoError ℚ :=
  if tx < pt.nodes.length then
    if u < pt.nodes.length then
      if v < pt.nodes.length then
        if 0 < (pt.nodeW tx).transmitters then
          if u = v then .error .SameReceiver
          else if (pt.nodeW tx).node_type = .SAT then
            if tx = u then
              if pt.hasEdge tx v then
                match (pt.nodeW v).node_type with
                | .SAT => .ok pt.fidelities.f_o
                | .OGS => .ok pt.fidelities.f_g
              else .error .MissingEdge
            else if tx = v then
              if pt.hasEdge tx u then
                match (pt.nodeW u).node_type with
                | .SAT => .ok pt.fidelities.f_o
                | .OGS => .ok pt.fidelities.f_g
              else .error .MissingEdge
            else
              if pt.hasEdge tx u then
                if pt.hasEdge tx v then
                  match (pt.nodeW u).node_type, (pt.nodeW v).node_type with
                  | .SAT, .SAT => .ok pt.fidelities.f_oo
                  | .SAT, .OGS => .ok pt.fidelities.f_og
                  | .OGS, .SAT => .ok pt.fidelities.f_og
                  | .OGS, .OGS => .ok pt.fidelities.f_gg
                else .error .MissingEdge
              else .error .MissingEdge
          else .error .NotASatellite
        else .error .NoTransmitters
      else .error .UnknownNode
    else .error .UnknownNode
  else .error .UnknownNode

/-- Result of a single-source shortest-path run (`petgraph`'s
`bellman_ford::Paths`): a distance and a predecessor per node, with
`none` standing for infinite distance and for no recorded predecessor
respectively. -/
structure Paths where
  distances : List (Option ℚ)
  predecessors : List (Option Nat)
deriving DecidableEq

/-- Both orientations of every undirected edge, as (source, target,
weight) triples: `petgraph`'s Bellman-Ford relaxes every edge incident
to every node, so on an undirected graph each stored edge acts in both
directions. -/
def directedEdges (pt : PhysicalTopology) : List (Nat × Nat × ℚ) :=
  pt.edges.flatMap fun e => [(e.1, e.2.1, e.2.2.distance), (e.2.1, e.1, e.2.2.distance)]

/-- Relaxation of one directed edge (the inner step of
`petgraph::algo::bellman_ford`): when the source end has a finite
distance and going through the edge improves the target's distance,
update the target's distance and predecessor. -/
def relaxEdge (s : Paths) (e : Nat × Nat × ℚ) : Paths :=
  match s.distances.getD e.1 none with
  | none => s
  | some da =>
    let cand := da + e.2.2
    let improves :=
      match s.distances.getD e.2.1 none with
      | none => true
      | some db => decide (cand < db)
    if improves then
      { distances := s.distances.set e.2.1 (some cand)
        predecessors := s.predecessors.set e.2.1 (some e.1) }
    else s

/-- Whether a directed edge could still be relaxed; used by the final
negative-cycle detection pass of Bellman-Ford. -/
def relaxable (s : Paths) (e : Nat × Nat × ℚ) : Bool :=
  match s.distances.getD e.1 none with
  | none => false
  | some da =>
    match s.distances.getD e.2.1 none with
    | none => true
    | some db => decide (da + e.2.2 < db)

/-- One full pass of relaxation over all directed edges. -/
def relaxPass (pt : PhysicalTopology) (s : Paths) : Paths :=
  pt.directedEdges.foldl relaxEdge s

/-- Iterated relaxation passes. -/
def runPasses (pt : PhysicalTopology) : Nat → Paths → Paths
  | 0, s => s
  | n + 1, s => pt.runPasses n (pt.relaxPass s)

/-- Invariant of the Bellman-Ford state used to analyse the
self-distance query: the source keeps distance 0 and no recorded
predecessor, and every finite distance is nonnegative. -/
def sourceInv (src : Nat) (s : Paths) : Prop :=
  s.distances.getD src none = some 0 ∧
  s.predecessors.getD src none = none ∧
  ∀ i q, s.distances.getD i none = some q → 0 ≤ q

/-- Initial Bellman-Ford state from `src`: distance 0 at the source and
infinity elsewhere, no predecessor recorded anywhere. -/
def initPaths (pt : PhysicalTopology) (src : Nat) : Paths :=
  { distances := (List.range pt.nodes.length).map fun i => if i = src then some 0 else none
    predecessors := List.replicate pt.nodes.length none }

/-- Single-source shortest paths from `src`
(`petgraph::algo::bellman_ford`): starting from the initial state,
`node_count - 1` relaxation passes are run, and a final scan of the
edges reports a negative cycle if any edge can still be relaxed. -/
def bellmanFord (pt : PhysicalTopology) (src : Nat) : Except TopoError Paths :=
  if pt.directedEdges.any (relaxable (pt.runPasses (pt.nodes.length - 1) (pt.initPaths src)))
  then .error .NegativeCycle
  else .ok (pt.runPasses (pt.nodes.length - 1) (pt.initPaths src))

/-- Distance in metres from node `u` to node `v`
(`PhysicalTopology::distance`): validity checks as in the `valid_node!`
macro, then a Bellman-Ford run from `u` (the Rust code memoises the run
in the lazy `paths` cache, which is semantically transparent because
the topology is immutable), failing on a negative cycle; the query
fails with a disconnection error when no predecessor of `v` was
recorded, and otherwise returns the computed distance (finite whenever
a predecessor exists). -/
def distance (pt : PhysicalTopology) (u v : Nat) : Except TopoError ℚ :=
  if u < pt.nodes.length then
    if v < pt.nodes.length then
      match pt.bellmanFord u with
      | .error _ => .error .NegativeCycle
      | .ok paths =>
        match paths.predecessors.getD v none with
        | some _ => .ok ((paths.distances.getD v none).getD 0)
        | none => .error .Disconnected
    else .error .UnknownNode
  else .error .UnknownNode

/-- Construction of a topology of default nodes from a distance list
(`PhysicalTopology::from_distances`): `petgraph`'s `extend_with_edges`
creates every node up to the largest index mentioned by an edge, each
with the default weight. -/
def from_distances (edges : List (Nat × Nat × ℚ)) (fidelities : StaticFidelities) :
    PhysicalTopology :=
  { nodes :=
      List.replicate (edges.foldl (fun m e => max m (max (e.1 + 1) (e.2.1 + 1))) 0) default
    edges := edges.map fun e => (e.1, e.2.1, ⟨e.2.2⟩)
    fidelities := fidelities }

end PhysicalTopology

/-- Payload of an EPR-generated event (`event.rs`, `EprGeneratedData`). -/
structure EprGeneratedData where
  tx_node_id : Nat
  master_node_id : Nat
  slave_node_id : Nat
deriving DecidableEq

/-- Payload of an EPR-notified event (`event.rs`, `EprNotifiedData`). -/
structure EprNotifiedData where
  this_node_id : Nat
  peer_node_id : Nat
  role : Role
  epr_pair_id : Nat
deriving DecidableEq

/-- Kind of a simulation event (`event.rs`, `EventType`). -/
inductive EventType where
  | WarmupPeriodEnd
  | ExperimentEnd
  | Progress (percent : Nat)
  | EprGenerated (data : EprGeneratedData)
  | EprNotified (data : EprNotifiedData)
deriving DecidableEq

/-- Simulation event (`event.rs`, `Event`): an integer nanosecond time
and a payload.  `Event::new` converts its `f64` seconds argument with
`to_nanoseconds` (multiply by ten to the ninth and truncate); events
are built below directly with the converted integer time, which is 0
for the literal `0.0` the network handler passes. -/
structure Event where
  time : Nat
  event_type : EventType
deriving DecidableEq

/-- Comparison implemented by `impl PartialOrd and Ord for Event`: the
code compares `other.time()` with `self.time()`, in that swapped order,
so the comparison on events is the reverse of the comparison on their
times and ignores the payload. -/
def Event.cmp (e1 e2 : Event) : Ordering :=
  compare e2.time e1.time

/-- Bool test for an `EprNotified` event. -/
def Event.isNotified (e : Event) : Bool :=
  match e.event_type with
  | .EprNotified _ => true
  | _ => false

/-- Bool test for an `EprGenerated` event. -/
def Event.isGenerated (e : Event) : Bool :=
  match e.event_type with
  | .EprGenerated _ => true
  | _ => false

/-- Record of one minted EPR pair.  Modelled from the spec:
`epr_register.rs` is not among the sources, and the spec prescribes one
record per pair holding the endpoints, the birth time and the initial
fidelity. -/
structure EprPair where
  pair_id : Nat
  master_node_id : Nat
  slave_node_id : Nat
  birth_time_ns : Nat
  initial_fidelity : ℚ
deriving DecidableEq

/-- Modelled from the spec: the EPR register (`epr_register.rs` is not
among the sources) holds a monotonically increasing `next_pair_id`
starting at 0 together with the records of the minted pairs, and
`new_epr_pair` returns the pre-increment counter value. -/
structure EprRegister where
  next_pair_id : Nat
  pairs : List EprPair
deriving DecidableEq

/-- Modelled from the spec: minting a pair allocates the next identifier
and stores the record. -/
def EprRegister.new_epr_pair (r : EprRegister) (master slave now : Nat) (fid : ℚ) :
    Nat × EprRegister :=
  (r.next_pair_id,
   { next_pair_id := r.next_pair_id + 1
     pairs := r.pairs ++ [⟨r.next_pair_id, master, slave, now, fid⟩] })

/-- EPR generator descriptor (`network.rs`, `EprGenerator`).  The
exponential random variable and its RNG are external collaborators
(`rand_distr`, `rand`), so only the identifier triple is state here and
the drawn inter-arrival time becomes a parameter of `handle`. -/
structure EprGenerator where
  tx_node_id : Nat
  master_node_id : Nat
  slave_node_id : Nat
deriving DecidableEq

/-- Scheduling of the next EPR generation (`EprGenerator::handle`),
where `dt` is the nanosecond conversion of the inter-arrival sample
drawn from the generator's exponential random variable. -/
def EprGenerator.handle (g : EprGenerator) (dt : Nat) : Event :=
  ⟨dt, .EprGenerated ⟨g.tx_node_id, g.master_node_id, g.slave_node_id⟩⟩

/-- Modelled from the spec: a NIC (`nic.rs` is not among the sources)
records its role, its number of memory qubits and its established
pairs as pairs of time and pair identifier. -/
structure Nic where
  role : Role
  num_qubits : Nat
  established_pairs : List (Nat × Nat)
deriving DecidableEq

/-- Modelled from the spec: a node (`node.rs` is not among the sources)
holds one NIC per peer, keyed by the peer node identifier. -/
structure Node where
  id : Nat
  nics : List (Nat × Nic)
deriving DecidableEq

instance : Inhabited Node := ⟨⟨0, []⟩⟩

/-- Modelled from the spec: `Node::new(id)` creates an empty node. -/
def Node.new (id : Nat) : Node := ⟨id, []⟩

/-- Modelled from the spec: `add_nic` creates one NIC with no
established pairs, and adding two NICs with the same peer key to one
node is a fatal programming error, embedded as `none`. -/
def Node.add_nic (nd : Node) (peer : Nat) (role : Role) (num_qubits : Nat) : Option Node :=
  if nd.nics.any (fun p => p.1 == peer) then none
  else some { nd with nics := nd.nics ++ [(peer, ⟨role, num_qubits, []⟩)] }

/-- First NIC stored under the given peer key. -/
def Node.findNic (nd : Node) (peer : Nat) : Option Nic :=
  (nd.nics.find? (fun p => p.1 == peer)).map Prod.snd

/-- Weight of a logical-topology edge, with the fields `Network::new`
reads from it (`edge.weight().tx`, `.memory_qubits`, `.capacity`). -/
structure LogicalEdgeWeight where
  tx : Nat
  memory_qubits : Nat
  capacity : ℚ
deriving DecidableEq

/-- Modelled from the spec: the logical topology
(`logical_topology.rs` is not among the sources) is a graph whose edges
carry a master (the edge source), a slave (the edge target) and a
weight; `Network::new` reads its node count and traverses its edge
references in a stable order, embedded as an explicit edge list. -/
structure LogicalTopology where
  num_nodes : Nat
  edges : List (Nat × Nat × LogicalEdgeWeight)
deriving DecidableEq

/-- Quantum network (`network.rs`, `Network`): the nodes with compact
identifiers from 0, the EPR generators indexed by the identifier of the
tx node (a hash map of vectors, embedded as an association list in
insertion order), the EPR register and the physical topology. -/
structure Network where
  nodes : List Node
  epr_generators : List (Nat × List EprGenerator)
  epr_register : EprRegister
  physical_topology : PhysicalTopology
deriving DecidableEq

/-- Embedding of `epr_generators.entry(k).or_default().push(g)`: append
to the vector under the key, creating the entry when absent. -/
def pushGenerator (m : List (Nat × List EprGenerator)) (k : Nat) (g : EprGenerator) :
    List (Nat × List EprGenerator) :=
  match m with
  | [] => [(k, [g])]
  | e :: rest => if e.1 = k then (e.1, e.2 ++ [g]) :: rest else e :: pushGenerator rest k g

/-- Embedding of `epr_generators.get(&k)`. -/
def lookupGenerators (m : List (Nat × List EprGenerator)) (k : Nat) :
    Option (List EprGenerator) :=
  (m.find? (fun e => e.1 == k)).map Prod.snd

/-- Installation of the two mirror NICs of one logical edge, as in the
loop body of `Network::new`: first the master's NIC keyed by the slave,
then the slave's NIC keyed by the master, both with the edge's
`memory_qubits`; an out-of-bounds node index or a duplicate NIC
registration is a panic, embedded as `none`. -/
def addEdgeNics (nodes : List Node) (e : Nat × Nat × LogicalEdgeWeight) :
    Option (List Node) :=
  match nodes[e.1]? with
  | none => none
  | some master =>
    match master.add_nic e.2.1 .Master e.2.2.memory_qubits with
    | none => none
    | some m' =>
      match (nodes.set e.1 m')[e.2.1]? with
      | none => none
      | some slave =>
        match slave.add_nic e.1 .Slave e.2.2.memory_qubits with
        | none => none
        | some s' => some ((nodes.set e.1 m').set e.2.1 s')

/-- NIC installation for every logical edge in traversal order. -/
def addAllNics (nodes : List Node) : List (Nat × Nat × LogicalEdgeWeight) → Option (List Node)
  | [] => some nodes
  | e :: rest =>
    match addEdgeNics nodes e with
    | none => none
    | some nodes1 => addAllNics nodes1 rest

/-- Generator construction for every logical edge in traversal order:
the `cnt`-th edge contributes one generator with its `tx` and its
endpoints, pushed under the key `tx`. -/
def buildGenerators (m : List (Nat × List EprGenerator)) :
    List (Nat × Nat × LogicalEdgeWeight) → List (Nat × List EprGenerator)
  | [] => m
  | e :: rest => buildGenerators (pushGenerator m e.2.2.tx ⟨e.2.2.tx, e.1, e.2.1⟩) rest

/-- Construction of the network from the logical topology
(`Network::new`).  The RNG seed `init_seed + cnt` only configures the
external random source, which is abstracted away; building the
exponential distribution panics when an edge's capacity is not
positive, embedded as the capacity guard. -/
def Network.new (lt : LogicalTopology) (pt : PhysicalTopology) : Option Network :=
  if lt.edges.all (fun e => decide (0 < e.2.2.capacity)) then
    match addAllNics ((List.range lt.num_nodes).map Node.new) lt.edges with
    | none => none
    | some nodes =>
      some { nodes := nodes
             epr_generators := buildGenerators [] lt.edges
             epr_register := ⟨0, []⟩
             physical_topology := pt }
  else none

/-- Handler of an `EprGenerated` event (`Network::handle_epr_generated`).
The generators registered under the transmitting node are scanned in
order for the first one whose master and slave match the event; a
missing map entry or an unmatched triple is a panic, embedded as
`none`.  When the fidelity query succeeds a pair is minted and the two
notifications are pushed before the re-arming event; when it fails only
the re-arming event is produced.  `dt` is the nanosecond conversion of
the inter-arrival sample the matched generator's RNG draws for the
re-arming event. -/
def Network.handle_epr_generated (nw : Network) (now : Nat) (data : EprGeneratedData)
    (dt : Nat) : Option (List Event × Network) :=
  match lookupGenerators nw.epr_generators data.tx_node_id with
  | none => none
  | some gens =>
    match gens.find? (fun g =>
        g.master_node_id == data.master_node_id &&
        g.slave_node_id == data.slave_node_id) with
    | none => none
    | some g =>
      match nw.physical_topology.fidelity data.tx_node_id data.master_node_id
          data.slave_node_id with
      | .ok fid =>
        let minted :=
          nw.epr_register.new_epr_pair data.master_node_id data.slave_node_id now fid
        some ([⟨0, .EprNotified ⟨data.master_node_id, data.slave_node_id, .Master,
                 minted.1⟩⟩,
               ⟨0, .EprNotified ⟨data.slave_node_id, data.master_node_id, .Slave,
                 minted.1⟩⟩,
               g.handle dt],
              { nw with epr_register := minted.2 })
      | .error _ => some ([g.handle dt], nw)

/-- Bool test for a failed query result. -/
def isErr {α : Type} (r : Except TopoError α) : Bool :=
  match r with
  | .error _ => true
  | .ok _ => false

/-- Six-node ring of the distance unit test (`test_graph` in
`physical_topology.rs`). -/
def ringTopo : PhysicalTopology :=
  PhysicalTopology.from_distances
    [(0, 1, 100), (1, 2, 100), (2, 5, 100), (0, 3, 100), (3, 4, 100), (4, 5, 100),
     (1, 3, 150), (2, 4, 150)] default

/-- Default node weight with the OGS node type, as produced by the
fidelity unit test's mutation of the default nodes. -/
def ogsW : NodeWeight :=
  { (default : NodeWeight) with node_type := .OGS }

/-- Star topology of the fidelity unit test
(`test_physical_topology_fidelities`): nodes 0, 3, 4, 5 are SAT, nodes
1 and 2 are OGS, edges from 0 to each of 1, 2, 3, 4 plus one from 4 to
5, and the fidelity table 0.6, 0.7, 0.8, 0.9, 1. -/
def starTopo : PhysicalTopology :=
  { nodes := [default, ogsW, ogsW, default, default, default]
    edges := [(0, 1, ⟨1⟩), (0, 2, ⟨1⟩), (0, 3, ⟨1⟩), (0, 4, ⟨1⟩), (4, 5, ⟨1⟩)]
    fidelities := { f_o := 0.6, f_g := 0.7, f_oo := 0.8, f_og := 0.9, f_gg := 1 } }

/-- Small network over the star topology with two generators on the tx
node 0, used to exercise the event handler on concrete inputs. -/
def starNetwork : Network :=
  { nodes := [Node.new 0, Node.new 1, Node.new 2, Node.new 3, Node.new 4, Node.new 5]
    epr_generators := [(0, [⟨0, 1, 3⟩, ⟨0, 1, 5⟩])]
    epr_register := ⟨0, []⟩
    physical_topology := starTopo }

/-- One-edge logical topology used to exercise the network constructor:
two nodes, master 0, slave 1, transmitter 0, three memory qubits,
capacity 1. -/
def pairLT : LogicalTopology := ⟨2, [(0, 1, ⟨0, 3, 1⟩)]⟩

/-- C8: the comparison implemented on events is the reverse of the
comparison on their times, two events with equal times compare equal
whatever their payloads, and an event that is maximal for this
comparison has minimal time, so a max-ordered priority container pops
events in non-decreasing time. -/
theorem event_cmp_reverses_time :
    (∀ e1 e2 : Event, (Event.cmp e1 e2 = .lt ↔ e2.time < e1.time) ∧
      (e1.time = e2.time → Event.cmp e1 e2 = .eq)) ∧
    (∀ (l : List Event) (e : Event), (∀ e2 ∈ l, Event.cmp e e2 ≠ .lt) →
      ∀ e2 ∈ l, e.time ≤ e2.time) := by
  constructor
  · intro e1 e2
    constructor
    · simpa [Event.cmp] using Nat.compare_eq_lt
    · intro h
      simp [Event.cmp, h, Nat.compare_eq_eq]
  · intro l e hmax e2 he2
    have h := hmax e2 he2
    rw [Event.cmp, ne_eq, Nat.compare_eq_lt] at h
    omega

/-- Witness for C8 at concrete events. -/
theorem event_cmp_reverses_time_witness :
    Event.cmp ⟨5, .ExperimentEnd⟩ ⟨3, .WarmupPeriodEnd⟩ = .lt ∧
    Event.cmp ⟨7, .ExperimentEnd⟩ ⟨7, .Progress 10⟩ = .eq ∧
    (⟨3, .WarmupPeriodEnd⟩ : Event).time ≤ (⟨5, .ExperimentEnd⟩ : Event).time := by
  refine ⟨?_, ?_, ?_⟩
  · exact (event_cmp_reverses_time.1 _ _).1.mpr (by decide)
  · exact (event_cmp_reverses_time.1 _ _).2 rfl
  · exact event_cmp_reverses_time.2 [⟨5, .ExperimentEnd⟩] ⟨3, .WarmupPeriodEnd⟩
      (by decide) ⟨5, .ExperimentEnd⟩ (by simp)

/-- C5: the distance queries of the six-node ring return the expected
values, and the query towards the nonexistent node 99 fails with the
unknown-node error. -/
theorem ring_distances :
    ringTopo.distance 0 1 = .ok 100 ∧ ringTopo.distance 0 2 = .ok 200 ∧
    ringTopo.distance 0 5 = .ok 300 ∧ ringTopo.distance 1 3 = .ok 150 ∧
    ringTopo.distance 3 1 = .ok 150 ∧ ringTopo.distance 0 99 = .error .UnknownNode := by
  refine ⟨?_, ?_, ?_, ?_, ?_, ?_⟩ <;> with_unfolding_all rfl

/-- Counterexample to C4: on the six-node ring the self-distance query
at node 0 does not return 0 but fails, because the Bellman-Ford run
records no predecessor for its source. -/
theorem ring_distance_self_not_zero :
    ringTopo.distance 0 0 ≠ .ok 0 ∧ ringTopo.distance 0 0 = .error .Disconnected := by
  constructor
  · intro h
    have h2 : ringTopo.distance 0 0 = .error .Disconnected := by with_unfolding_all rfl
    rw [h2] at h
    exact Except.noConfusion h
  · with_unfolding_all rfl

/-- C1: whenever the network's handler of an `EprGenerated` event finds
a matching generator and the fidelity query succeeds, the returned
event list carries exactly two `EprNotified` events, both at relative
time 0, one with this = master, peer = slave and role Master and one
with this = slave, peer = master and role Slave, both with the pair
identifier returned by the register. -/
theorem handle_epr_generated_two_notifications
    (nw nw' : Network) (now dt : Nat) (data : EprGeneratedData) (f : ℚ) (evs : List Event)
    (hfid : nw.physical_topology.fidelity data.tx_node_id data.master_node_id
      data.slave_node_id = .ok f)
    (h : nw.handle_epr_generated now data dt = some (evs, nw')) :
    evs.filter Event.isNotified =
      [⟨0, .EprNotified ⟨data.master_node_id, data.slave_node_id, .Master,
          nw.epr_register.next_pair_id⟩⟩,
       ⟨0, .EprNotified ⟨data.slave_node_id, data.master_node_id, .Slave,
          nw.epr_register.next_pair_id⟩⟩] := by
  unfold Network.handle_epr_generated at h
  split at h
  · exact Option.noConfusion h
  · split at h
    · exact Option.noConfusion h
    · split at h
      · simp only [Option.some.injEq, Prod.mk.injEq] at h
        obtain ⟨hevs, hnw⟩ := h
        subst hevs
        simp [List.filter, Event.isNotified, EprGenerator.handle, EprRegister.new_epr_pair]
      · rename_i hfd
        rw [hfid] at hfd
        exact Except.noConfusion hfd

/-- Witness for C1 on the star network, transmitter 0, master 1,
slave 3, where the fidelity query yields 0.9. -/
theorem handle_epr_generated_two_notifications_witness :
    ∃ evs nw', starNetwork.handle_epr_generated 17 ⟨0, 1, 3⟩ 42 = some (evs, nw') ∧
      evs.filter Event.isNotified =
        [⟨0, .EprNotified ⟨1, 3, .Master, 0⟩⟩, ⟨0, .EprNotified ⟨3, 1, .Slave, 0⟩⟩] := by
  refine ⟨_, _, rfl, ?_⟩
  exact handle_epr_generated_two_notifications starNetwork _ 17 42 ⟨0, 1, 3⟩ 0.9 _ rfl rfl

/-- C2: whenever the network's handler of an `EprGenerated` event finds
a matching generator, a failing fidelity query leaves the EPR register
unchanged and produces no `EprNotified` event, and in every case the
returned event list carries exactly one new `EprGenerated` event for
the same transmitter, master and slave, so the generator is re-armed.
The hypothesis `hkeys` is the construction invariant that generators
are stored under the key equal to their own tx node identifier. -/
theorem handle_epr_generated_rearms
    (nw nw' : Network) (now dt : Nat) (data : EprGeneratedData) (evs : List Event)
    (hkeys : ∀ g ∈ (lookupGenerators nw.epr_generators data.tx_node_id).getD [],
      EprGenerator.tx_node_id g = data.tx_node_id)
    (h : nw.handle_epr_generated now data dt = some (evs, nw')) :
    (∀ err, nw.physical_topology.fidelity data.tx_node_id data.master_node_id
        data.slave_node_id = .error err →
      nw'.epr_register = nw.epr_register ∧ evs.filter Event.isNotified = []) ∧
    evs.filter Event.isGenerated = [⟨dt, .EprGenerated data⟩] := by
  unfold Network.handle_epr_generated at h
  split at h
  · exact Option.noConfusion h
  · rename_i gens hg
    split at h
    · exact Option.noConfusion h
    · rename_i g hfind
      have hmem := List.mem_of_find?_eq_some hfind
      have hp := List.find?_some hfind
      simp only [Bool.and_eq_true, beq_iff_eq] at hp
      obtain ⟨hgm, hgs⟩ := hp
      have hgt : EprGenerator.tx_node_id g = data.tx_node_id := by
        apply hkeys
        rw [hg]
        exact hmem
      have hgdata : (⟨g.tx_node_id, g.master_node_id, g.slave_node_id⟩ : EprGeneratedData)
          = data := by
        cases data
        simp_all
      split at h
      · rename_i fid hfd
        simp only [Option.some.injEq, Prod.mk.injEq] at h
        obtain ⟨hevs, hnw⟩ := h
        subst hevs
        constructor
        · intro err herr
          rw [herr] at hfd
          exact Except.noConfusion hfd
        · simp [List.filter, Event.isGenerated, Event.isNotified, EprGenerator.handle,
            hgdata]
      · rename_i e hfd
        simp only [Option.some.injEq, Prod.mk.injEq] at h
        obtain ⟨hevs, hnw⟩ := h
        subst hevs
        constructor
        · intro err herr
          constructor
          · rw [← hnw]
          · simp [List.filter, Event.isNotified, EprGenerator.handle]
        · simp [List.filter, Event.isGenerated, EprGenerator.handle, hgdata]

/-- Witness for C2 on the star network, transmitter 0, master 1,
slave 5, where the fidelity query fails for lack of the edge between
0 and 5. -/
theorem handle_epr_generated_rearms_witness :
    ∃ evs nw', starNetwork.handle_epr_generated 17 ⟨0, 1, 5⟩ 42 = some (evs, nw') ∧
      nw'.epr_register = starNetwork.epr_register ∧
      evs.filter Event.isNotified = [] ∧
      evs.filter Event.isGenerated = [⟨42, .EprGenerated ⟨0, 1, 5⟩⟩] := by
  refine ⟨_, _, rfl, ?_⟩
  have h := handle_epr_generated_rearms starNetwork _ 17 42 ⟨0, 1, 5⟩ _
    (by decide) rfl
  obtain ⟨hdrop, hgen⟩ := h
  have hd := hdrop .MissingEdge rfl
  exact ⟨hd.1, hd.2, hgen⟩

/-- C10: whenever the network's handler of an `EprGenerated` event
finds a matching generator, the returned event list has length 1 or 3,
its last element is always the re-arming `EprGenerated` event for the
same transmitter, master and slave, and when the length is 3 the first
element is the Master-role notification and the second the Slave-role
notification.  The hypothesis `hkeys` is the construction invariant
that generators are stored under the key equal to their own tx node
identifier. -/
theorem handle_epr_generated_shape
    (nw nw' : Network) (now dt : Nat) (data : EprGeneratedData) (evs : List Event)
    (hkeys : ∀ g ∈ (lookupGenerators nw.epr_generators data.tx_node_id).getD [],
      EprGenerator.tx_node_id g = data.tx_node_id)
    (h : nw.handle_epr_generated now data dt = some (evs, nw')) :
    (evs.length = 1 ∨ evs.length = 3) ∧
    evs.getLast? = some ⟨dt, .EprGenerated data⟩ ∧
    (evs.length = 3 →
      evs.head? = some ⟨0, .EprNotified ⟨data.master_node_id, data.slave_node_id, .Master,
        nw.epr_register.next_pair_id⟩⟩ ∧
      evs[1]? = some ⟨0, .EprNotified ⟨data.slave_node_id, data.master_node_id, .Slave,
        nw.epr_register.next_pair_id⟩⟩) := by
  unfold Network.handle_epr_generated at h
  split at h
  · exact Option.noConfusion h
  · rename_i gens hg
    split at h
    · exact Option.noConfusion h
    · rename_i g hfind
      have hmem := List.mem_of_find?_eq_some hfind
      have hp := List.find?_some hfind
      simp only [Bool.and_eq_true, beq_iff_eq] at hp
      obtain ⟨hgm, hgs⟩ := hp
      have hgt : EprGenerator.tx_node_id g = data.tx_node_id := by
        apply hkeys
        rw [hg]
        exact hmem
      have hgdata : (⟨g.tx_node_id, g.master_node_id, g.slave_node_id⟩ : EprGeneratedData)
          = data := by
        cases data
        simp_all
      split at h
      · rename_i fid hfd
        simp only [Option.some.injEq, Prod.mk.injEq] at h
        obtain ⟨hevs, hnw⟩ := h
        subst hevs
        refine ⟨Or.inr rfl, ?_, fun _ => ⟨rfl, rfl⟩⟩
        simp [List.getLast?, EprGenerator.handle, hgdata, EprRegister.new_epr_pair]
      · rename_i e hfd
        simp only [Option.some.injEq, Prod.mk.injEq] at h
        obtain ⟨hevs, hnw⟩ := h
        subst hevs
        refine ⟨Or.inl rfl, ?_, fun h3 => absurd h3 (by simp)⟩
        simp [List.getLast?, EprGenerator.handle, hgdata]

/-- Witness for C10 on the star network, transmitter 0, master 1,
slave 3, where the handler returns three events. -/
theorem handle_epr_generated_shape_witness :
    ∃ evs nw', starNetwork.handle_epr_generated 17 ⟨0, 1, 3⟩ 42 = some (evs, nw') ∧
      evs.length = 3 ∧ evs.getLast? = some ⟨42, .EprGenerated ⟨0, 1, 3⟩⟩ ∧
      evs.head? = some ⟨0, .EprNotified ⟨1, 3, .Master, 0⟩⟩ := by
  refine ⟨_, _, rfl, ?_⟩
  have h := handle_epr_generated_shape starNetwork _ 17 42 ⟨0, 1, 3⟩ _
    (by decide) rfl
  exact ⟨rfl, h.2.1, (h.2.2 rfl).1⟩

/-- C3: when the fidelity preconditions hold, the returned value is
selected by the documented rules: the one-hop cases return f_o towards
a SAT receiver and f_g towards an OGS receiver, and the two-hop case
returns f_oo, f_og or f_gg according to the two receiver types. -/
theorem fidelity_selection (pt : PhysicalTopology) (tx u v : Nat)
    (htx : tx < pt.nodes.length) (hu : u < pt.nodes.length) (hv : v < pt.nodes.length)
    (htr : 0 < (pt.nodeW tx).transmitters)
    (hsat : (pt.nodeW tx).node_type = .SAT)
    (hne : u ≠ v) :
    (tx = u → pt.hasEdge tx v = true →
      pt.fidelity tx u v = .ok (match (pt.nodeW v).node_type with
        | .SAT => pt.fidelities.f_o
        | .OGS => pt.fidelities.f_g)) ∧
    (tx = v → pt.hasEdge tx u = true →
      pt.fidelity tx u v = .ok (match (pt.nodeW u).node_type with
        | .SAT => pt.fidelities.f_o
        | .OGS => pt.fidelities.f_g)) ∧
    (tx ≠ u → tx ≠ v → pt.hasEdge tx u = true → pt.hasEdge tx v = true →
      pt.fidelity tx u v = .ok (match (pt.nodeW u).node_type, (pt.nodeW v).node_type with
        | .SAT, .SAT => pt.fidelities.f_oo
        | .SAT, .OGS => pt.fidelities.f_og
        | .OGS, .SAT => pt.fidelities.f_og
        | .OGS, .OGS => pt.fidelities.f_gg)) := by
  refine ⟨?_, ?_, ?_⟩
  · intro hteq hedge
    unfold PhysicalTopology.fidelity
    rw [if_pos htx, if_pos hu, if_pos hv, if_pos htr, if_neg hne, if_pos hsat,
      if_pos hteq, if_pos hedge]
    cases hnt : (pt.nodeW v).node_type <;> rfl
  · intro hteq hedge
    have htu : ¬ tx = u := by omega
    unfold PhysicalTopology.fidelity
    rw [if_pos htx, if_pos hu, if_pos hv, if_pos htr, if_neg hne, if_pos hsat,
      if_neg htu, if_pos hteq, if_pos hedge]
    cases hnt : (pt.nodeW u).node_type <;> rfl
  · intro htu htv hedgeu hedgev
    unfold PhysicalTopology.fidelity
    rw [if_pos htx, if_pos hu, if_pos hv, if_pos htr, if_neg hne, if_pos hsat,
      if_neg htu, if_neg htv, if_pos hedgeu, if_pos hedgev]
    cases hntu : (pt.nodeW u).node_type <;> cases hntv : (pt.nodeW v).node_type <;> rfl

/-- Witness for C3 on the star topology: transmitter 0 towards the OGS
node 1 and the SAT node 3 yields the two-hop orbit-to-ground fidelity
0.9. -/
theorem fidelity_selection_witness :
    starTopo.fidelity 0 1 3 = .ok 0.9 := by
  exact (fidelity_selection starTopo 0 1 3 (by decide) (by decide) (by decide)
    (by decide) (by decide) (by decide)).2.2 (by decide) (by decide) (by decide) (by decide)

/-- C6: the fidelity query fails exactly when one of the following
holds: one of the three nodes does not exist, the transmitter has zero
transmitters, the transmitter is an OGS node, the two receivers
coincide, or a required edge is missing, namely the edge towards v when
tx equals u, the edge towards u when tx equals v, and either of the two
edges otherwise. -/
theorem fidelity_error_conditions (pt : PhysicalTopology) (tx u v : Nat) :
    isErr (pt.fidelity tx u v) = true ↔
      (¬ tx < pt.nodes.length ∨ ¬ u < pt.nodes.length ∨ ¬ v < pt.nodes.length ∨
       (pt.nodeW tx).transmitters = 0 ∨ (pt.nodeW tx).node_type = .OGS ∨ u = v ∨
       (tx = u ∧ pt.hasEdge tx v = false) ∨
       (tx = v ∧ pt.hasEdge tx u = false) ∨
       (tx ≠ u ∧ tx ≠ v ∧ (pt.hasEdge tx u = false ∨ pt.hasEdge tx v = false))) := by
  unfold PhysicalTopology.fidelity
  by_cases htx : tx < pt.nodes.length
  case neg => simp [htx, isErr]
  rw [if_pos htx]
  by_cases hu : u < pt.nodes.length
  case neg => simp [htx, hu, isErr]
  rw [if_pos hu]
  by_cases hv : v < pt.nodes.length
  case neg => simp [htx, hu, hv, isErr]
  rw [if_pos hv]
  by_cases htr : 0 < (pt.nodeW tx).transmitters
  case neg =>
    have h0 : (pt.nodeW tx).transmitters = 0 := by omega
    simp [if_neg htr, h0, isErr]
  rw [if_pos htr]
  have h0 : ¬ (pt.nodeW tx).transmitters = 0 := by omega
  by_cases huv : u = v
  case pos => simp [if_pos huv, huv, isErr]
  rw [if_neg huv]
  by_cases hsat : (pt.nodeW tx).node_type = .SAT
  case neg =>
    have hogs : (pt.nodeW tx).node_type = .OGS := by
      cases hw : (pt.nodeW tx).node_type
      · exact absurd hw hsat
      · rfl
    simp [if_neg hsat, htx, hu, hv, h0, hogs, huv, isErr]
  rw [if_pos hsat]
  have hogs : ¬ (pt.nodeW tx).node_type = .OGS := by
    rw [hsat]
    intro hc
    exact NodeType.noConfusion hc
  by_cases htu : tx = u
  case pos =>
    subst htu
    rw [if_pos rfl]
    by_cases hev : pt.hasEdge tx v = true
    case neg =>
      have hev2 : pt.hasEdge tx v = false := by
        cases hb : pt.hasEdge tx v
        · rfl
        · exact absurd hb hev
      simp [if_neg hev, htx, hu, hv, h0, hogs, huv, hev2, isErr]
    rw [if_pos hev]
    cases hnt : (pt.nodeW v).node_type <;>
      simp [htx, hu, hv, h0, hogs, huv, hev, isErr]
  rw [if_neg htu]
  by_cases htv : tx = v
  case pos =>
    subst htv
    rw [if_pos rfl]
    by_cases heu : pt.hasEdge tx u = true
    case neg =>
      have heu2 : pt.hasEdge tx u = false := by
        cases hb : pt.hasEdge tx u
        · rfl
        · exact absurd hb heu
      simp [if_neg heu, htx, hu, hv, h0, hogs, huv, htu, heu2, isErr]
    rw [if_pos heu]
    cases hnt : (pt.nodeW u).node_type <;>
      simp [htx, hu, hv, h0, hogs, huv, htu, heu, isErr]
  rw [if_neg htv]
  by_cases heu : pt.hasEdge tx u = true
  case neg =>
    have heu2 : pt.hasEdge tx u = false := by
      cases hb : pt.hasEdge tx u
      · rfl
      · exact absurd hb heu
    simp [if_neg heu, htx, hu, hv, h0, hogs, huv, htu, htv, heu2, isErr]
  rw [if_pos heu]
  by_cases hev : pt.hasEdge tx v = true
  case neg =>
    have hev2 : pt.hasEdge tx v = false := by
      cases hb : pt.hasEdge tx v
      · rfl
      · exact absurd hb hev
    simp [if_neg hev, htx, hu, hv, h0, hogs, huv, htu, htv, heu, hev2, isErr]
  rw [if_pos hev]
  cases hntu : (pt.nodeW u).node_type <;> cases hntv : (pt.nodeW v).node_type <;>
    simp [htx, hu, hv, h0, hogs, huv, htu, htv, heu, hev, isErr]

/-- Helper for the receiver symmetry of the fidelity query: swapping
the two receivers yields the same result, the error branches producing
the same failure mode and the value branches the same fidelity. -/
theorem fidelity_swap (pt : PhysicalTopology) (tx u v : Nat) :
    pt.fidelity tx u v = pt.fidelity tx v u := by
  unfold PhysicalTopology.fidelity
  by_cases htx : tx < pt.nodes.length
  case neg => simp [htx]
  by_cases hu : u < pt.nodes.length
  case neg =>
    by_cases hv : v < pt.nodes.length <;> simp [htx, hu, hv]
  by_cases hv : v < pt.nodes.length
  case neg => simp [htx, hu, hv]
  by_cases htr : 0 < (pt.nodeW tx).transmitters
  case neg => simp [htx, hu, hv, htr]
  by_cases huv : u = v
  case pos => simp [htx, hu, hv, htr, huv]
  have hvu : ¬ v = u := fun h => huv h.symm
  by_cases hsat : (pt.nodeW tx).node_type = .SAT
  case neg => simp [htx, hu, hv, htr, huv, hvu, hsat]
  by_cases htu : tx = u
  case pos =>
    subst htu
    have htv : ¬ tx = v := huv
    simp [htx, hu, hv, htr, huv, hvu, hsat, htv]
  by_cases htv : tx = v
  case pos =>
    subst htv
    simp [htx, hu, hv, htr, huv, hvu, hsat, htu]
  by_cases heu : pt.hasEdge tx u = true
  case neg =>
    by_cases hev : pt.hasEdge tx v = true <;>
      simp [htx, hu, hv, htr, huv, hvu, hsat, htu, htv, heu, hev]
  by_cases hev : pt.hasEdge tx v = true
  case neg => simp [htx, hu, hv, htr, huv, hvu, hsat, htu, htv, heu, hev]
  cases hnu : (pt.nodeW u).node_type <;> cases hnv : (pt.nodeW v).node_type <;>
    simp [htx, hu, hv, htr, huv, hvu, hsat, htu, htv, heu, hev, hnu, hnv]

/-- C9: the fidelity query is symmetric in its two receivers: for every
value f it returns f with the receivers in one order exactly when it
returns f with them swapped, so the two calls either both fail or both
succeed with the same value. -/
theorem fidelity_receiver_symmetric (pt : PhysicalTopology) (tx u v : Nat) :
    ∀ f : ℚ, pt.fidelity tx u v = .ok f ↔ pt.fidelity tx v u = .ok f := by
  intro f
  rw [fidelity_swap]

/-- Helper: reading a list at an index other than the one just set is
unchanged. -/
theorem getD_set_ne {α : Type} {l : List α} {i j : Nat} (h : i ≠ j) (a d : α) :
    (l.set i a).getD j d = l.getD j d := by
  simp [List.getD_eq_getElem?_getD, List.getElem?_set_ne h]

/-- Helper: reading a list at the index just set yields the new value
or, out of bounds, the old default read. -/
theorem getD_set_cases {α : Type} {l : List α} {i : Nat} (a d : α) :
    (l.set i a).getD i d = a ∨ (l.set i a).getD i d = l.getD i d := by
  by_cases hi : i < l.length
  · left
    simp [List.getD_eq_getElem?_getD, List.getElem?_set_self hi]
  · right
    rw [List.set_eq_of_length_le (Nat.le_of_not_lt hi)]

/-- Helper: one relaxation step preserves the source invariant when the
edge weight is nonnegative. -/
theorem relaxEdge_sourceInv {src : Nat} {s : PhysicalTopology.Paths} {e : Nat × Nat × ℚ}
    (hw : 0 ≤ e.2.2) (h : PhysicalTopology.sourceInv src s) :
    PhysicalTopology.sourceInv src (PhysicalTopology.relaxEdge s e) := by
  obtain ⟨hd0, hp0, hnn⟩ := h
  unfold PhysicalTopology.relaxEdge
  cases hda : s.distances.getD e.1 none with
  | none => exact ⟨hd0, hp0, hnn⟩
  | some da =>
    have hda0 : 0 ≤ da := hnn e.1 da hda
    have hnewOk : PhysicalTopology.sourceInv src
        ⟨s.distances.set e.2.1 (some (da + e.2.2)),
         s.predecessors.set e.2.1 (some e.1)⟩ → True := fun _ => trivial
    by_cases hb : e.2.1 = src
    · subst hb
      rw [hd0]
      have hge : decide (da + e.2.2 < 0) = false :=
        decide_eq_false (not_lt.mpr (add_nonneg hda0 hw))
      simp only [hge, Bool.false_eq_true, if_false]
      exact ⟨hd0, hp0, hnn⟩
    · have hset : PhysicalTopology.sourceInv src
          ⟨s.distances.set e.2.1 (some (da + e.2.2)),
           s.predecessors.set e.2.1 (some e.1)⟩ := by
        refine ⟨?_, ?_, ?_⟩
        · rw [getD_set_ne hb]
          exact hd0
        · rw [getD_set_ne hb]
          exact hp0
        · intro i q hq
          by_cases hi : i = e.2.1
          · subst hi
            rcases @getD_set_cases _ s.distances e.2.1 (some (da + e.2.2)) none with
              hc | hc
            · rw [hc] at hq
              cases hq
              exact add_nonneg hda0 hw
            · rw [hc] at hq
              exact hnn _ _ hq
          · rw [getD_set_ne (fun hh => hi hh.symm)] at hq
            exact hnn _ _ hq
      cases hdb : s.distances.getD e.2.1 none with
      | none =>
        simp only [if_true]
        exact hset
      | some db =>
        by_cases hlt : da + e.2.2 < db
        · simp only [decide_eq_true hlt, if_true]
          exact hset
        · simp only [decide_eq_false hlt, Bool.false_eq_true, if_false]
          exact ⟨hd0, hp0, hnn⟩

/-- Helper: a full fold of relaxation steps over nonnegative edges
preserves the source invariant. -/
theorem foldl_relaxEdge_sourceInv {src : Nat} :
    ∀ (es : List (Nat × Nat × ℚ)), (∀ e ∈ es, 0 ≤ e.2.2) →
      ∀ s : PhysicalTopology.Paths, PhysicalTopology.sourceInv src s →
        PhysicalTopology.sourceInv src (es.foldl PhysicalTopology.relaxEdge s) := by
  intro es
  induction es with
  | nil => intro _ s h; exact h
  | cons e rest ih =>
    intro hw s h
    exact ih (fun x hx => hw x (List.mem_cons_of_mem _ hx))
      (PhysicalTopology.relaxEdge s e)
      (relaxEdge_sourceInv (hw e (List.mem_cons_self _ _)) h)

/-- Helper: every directed orientation of a nonnegative undirected edge
list is nonnegative. -/
theorem directedEdges_nonneg {pt : PhysicalTopology}
    (hw : ∀ e ∈ pt.edges, 0 ≤ e.2.2.distance) :
    ∀ e ∈ pt.directedEdges, 0 ≤ e.2.2 := by
  intro e he
  unfold PhysicalTopology.directedEdges at he
  simp only [List.mem_flatMap, List.mem_cons, List.not_mem_nil, or_false,
    List.mem_singleton] at he
  obtain ⟨e0, he0, hmem⟩ := he
  rcases hmem with h | h <;> subst h <;> exact hw e0 he0

/-- Helper: iterated relaxation passes preserve the source invariant. -/
theorem runPasses_sourceInv {pt : PhysicalTopology} {src : Nat}
    (hw : ∀ e ∈ pt.edges, 0 ≤ e.2.2.distance) :
    ∀ (n : Nat) (s : PhysicalTopology.Paths), PhysicalTopology.sourceInv src s →
      PhysicalTopology.sourceInv src (pt.runPasses n s) := by
  intro n
  induction n with
  | zero => intro s h; exact h
  | succ n ih =>
    intro s h
    exact ih _ (foldl_relaxEdge_sourceInv _ (directedEdges_nonneg hw) _ h)

/-- Helper: the Bellman-Ford initial state satisfies the source
invariant when the source is an existing node. -/
theorem init_sourceInv (pt : PhysicalTopology) (src : Nat) (h : src < pt.nodes.length) :
    PhysicalTopology.sourceInv src (pt.initPaths src) := by
  refine ⟨?_, ?_, ?_⟩
  · simp [PhysicalTopology.initPaths, List.getD_eq_getElem?_getD, List.getElem?_map,
      List.getElem?_range h]
  · simp [PhysicalTopology.initPaths, List.getD_eq_getElem?_getD, List.getElem?_replicate, h]
  · intro i q hq
    simp only [PhysicalTopology.initPaths, List.getD_eq_getElem?_getD,
      List.getElem?_map] at hq
    by_cases hi : i < pt.nodes.length
    · rw [List.getElem?_range hi] at hq
      by_cases his : i = src
      · simp [his] at hq
        linarith [hq]
      · simp [his] at hq
    · rw [List.getElem?_eq_none (by simpa using Nat.le_of_not_lt hi)] at hq
      simp at hq

/-- C4 (amended): for every node that exists in a physical topology
with nonnegative edge distances, the self-distance query fails instead
of returning 0, because the Bellman-Ford run records no predecessor for
its source. -/
theorem distance_self_fails (pt : PhysicalTopology) (u : Nat)
    (hu : u < pt.nodes.length)
    (hw : ∀ e ∈ pt.edges, 0 ≤ e.2.2.distance) :
    isErr (pt.distance u u) = true := by
  cases hbf : pt.bellmanFord u with
  | error e =>
    have hd : pt.distance u u = .error .NegativeCycle := by
      unfold PhysicalTopology.distance
      rw [if_pos hu, if_pos hu, hbf]
    rw [hd]
    rfl
  | ok paths =>
    have hpaths : PhysicalTopology.sourceInv u paths := by
      unfold PhysicalTopology.bellmanFord at hbf
      split at hbf
      · exact Except.noConfusion hbf
      · cases hbf
        exact runPasses_sourceInv hw _ _ (init_sourceInv pt u hu)
    have hd : pt.distance u u = .error .Disconnected := by
      unfold PhysicalTopology.distance
      rw [if_pos hu, if_pos hu, hbf]
      simp only [hpaths.2.1]
    rw [hd]
    rfl

/-- Witness for the amended C4 on the six-node ring at node 0. -/
theorem distance_self_fails_witness :
    isErr (ringTopo.distance 0 0) = true :=
  distance_self_fails ringTopo 0 (by decide) (by decide)

/-- Helper: a NIC lookup that succeeds still succeeds with the same
result after more NICs are appended. -/
theorem findNic_append {nics : List (Nat × Nic)} {k : Nat} {x : Nat × Nic} {n : Nic}
    (h : (nics.find? (fun p => p.1 == k)).map Prod.snd = some n) :
    ((nics ++ [x]).find? (fun p => p.1 == k)).map Prod.snd = some n := by
  rw [List.find?_append]
  cases hf : nics.find? (fun p => p.1 == k) with
  | none => rw [hf] at h; exact Option.noConfusion h
  | some pr => rw [hf] at h; simp [hf] at h ⊢; exact h

/-- Helper: a successful `add_nic` preserves every existing NIC
lookup. -/
theorem add_nic_preserves {nd nd' : Node} {peer k : Nat} {role : Role} {q : Nat} {n : Nic}
    (h : nd.add_nic peer role q = some nd') (hk : nd.findNic k = some n) :
    nd'.findNic k = some n := by
  by_cases hdup : nd.nics.any (fun p => p.1 == peer) = true
  · rw [Node.add_nic, if_pos hdup] at h
    exact Option.noConfusion h
  · rw [Node.add_nic, if_neg hdup] at h
    cases h
    unfold Node.findNic at hk ⊢
    exact findNic_append hk

/-- Helper: a successful `add_nic` makes the new NIC findable under the
peer key. -/
theorem add_nic_finds {nd nd' : Node} {peer : Nat} {role : Role} {q : Nat}
    (h : nd.add_nic peer role q = some nd') :
    nd'.findNic peer = some ⟨role, q, []⟩ := by
  by_cases hdup : nd.nics.any (fun p => p.1 == peer) = true
  · rw [Node.add_nic, if_pos hdup] at h
    exact Option.noConfusion h
  · rw [Node.add_nic, if_neg hdup] at h
    cases h
    unfold Node.findNic
    have hnone : nd.nics.find? (fun p => p.1 == peer) = none := by
      rw [List.find?_eq_none]
      intro x hx
      intro hpx
      exact hdup (List.any_eq_true.mpr ⟨x, hx, hpx⟩)
    rw [List.find?_append, hnone]
    simp

/-- Helper: updating one node by a successful `add_nic` preserves every
existing NIC lookup across the node list. -/
theorem set_add_nic_preserves {nodes : List Node} {i peer : Nat} {nd nd' : Node}
    {role : Role} {q : Nat} {a b : Nat} {n : Nic}
    (hi : nodes[i]? = some nd)
    (hadd : nd.add_nic peer role q = some nd')
    (hk : (nodes.getD a default).findNic b = some n) :
    ((nodes.set i nd').getD a default).findNic b = some n := by
  by_cases hia : i = a
  · subst hia
    obtain ⟨hlen, hval⟩ := List.getElem?_eq_some_iff.mp hi
    have h1 : nodes.getD i default = nd := by
      simp [List.getD_eq_getElem?_getD, hi]
    rw [h1] at hk
    have h2 : (nodes.set i nd').getD i default = nd' := by
      simp [List.getD_eq_getElem?_getD, List.getElem?_set_self hlen]
    rw [h2]
    exact add_nic_preserves hadd hk
  · rw [getD_set_ne hia]
    exact hk

/-- Helper: processing one logical edge preserves every existing NIC
lookup. -/
theorem addEdgeNics_preserves {nodes nodes' : List Node} {e : Nat × Nat × LogicalEdgeWeight}
    {a b : Nat} {n : Nic}
    (h : addEdgeNics nodes e = some nodes')
    (hk : (nodes.getD a default).findNic b = some n) :
    (nodes'.getD a default).findNic b = some n := by
  unfold addEdgeNics at h
  split at h
  · exact Option.noConfusion h
  · rename_i master hm
    split at h
    · exact Option.noConfusion h
    · rename_i m' hma
      split at h
      · exact Option.noConfusion h
      · rename_i slave hs
        split at h
        · exact Option.noConfusion h
        · rename_i s' hsa
          cases h
          exact set_add_nic_preserves hs hsa (set_add_nic_preserves hm hma hk)

/-- Helper: processing one logical edge installs the two mirror NICs of
that edge. -/
theorem addEdgeNics_establishes {nodes nodes' : List Node}
    {e : Nat × Nat × LogicalEdgeWeight}
    (h : addEdgeNics nodes e = some nodes') :
    (nodes'.getD e.1 default).findNic e.2.1 =
      some ⟨.Master, e.2.2.memory_qubits, []⟩ ∧
    (nodes'.getD e.2.1 default).findNic e.1 =
      some ⟨.Slave, e.2.2.memory_qubits, []⟩ := by
  unfold addEdgeNics at h
  split at h
  · exact Option.noConfusion h
  · rename_i master hm
    split at h
    · exact Option.noConfusion h
    · rename_i m' hma
      split at h
      · exact Option.noConfusion h
      · rename_i slave hs
        split at h
        · exact Option.noConfusion h
        · rename_i s' hsa
          cases h
          obtain ⟨hlen, _⟩ := List.getElem?_eq_some_iff.mp hm
          constructor
          · have h1 : ((nodes.set e.1 m').getD e.1 default).findNic e.2.1 =
                some ⟨.Master, e.2.2.memory_qubits, []⟩ := by
              have h2 : (nodes.set e.1 m').getD e.1 default = m' := by
                simp [List.getD_eq_getElem?_getD, List.getElem?_set_self hlen]
              rw [h2]
              exact add_nic_finds hma
            exact set_add_nic_preserves hs hsa h1
          · obtain ⟨hlen2, _⟩ := List.getElem?_eq_some_iff.mp hs
            have h3 : ((nodes.set e.1 m').set e.2.1 s').getD e.2.1 default = s' := by
              simp [List.getD_eq_getElem?_getD, List.getElem?_set_self hlen2]
            rw [h3]
            exact add_nic_finds hsa

/-- Helper: processing a list of logical edges preserves every existing
NIC lookup. -/
theorem addAllNics_preserves {a b : Nat} {n : Nic} :
    ∀ {es : List (Nat × Nat × LogicalEdgeWeight)} {nodes nodes' : List Node},
      addAllNics nodes es = some nodes' →
      (nodes.getD a default).findNic b = some n →
      (nodes'.getD a default).findNic b = some n := by
  intro es
  induction es with
  | nil =>
    intro nodes nodes' h hk
    cases h
    exact hk
  | cons e rest ih =>
    intro nodes nodes' h hk
    unfold addAllNics at h
    split at h
    · exact Option.noConfusion h
    · rename_i nodes1 h1
      exact ih h (addEdgeNics_preserves h1 hk)

/-- Helper: processing a list of logical edges installs the two mirror
NICs of every edge in the list. -/
theorem addAllNics_establishes :
    ∀ {es : List (Nat × Nat × LogicalEdgeWeight)} {nodes nodes' : List Node},
      addAllNics nodes es = some nodes' →
      ∀ e ∈ es,
        (nodes'.getD e.1 default).findNic e.2.1 =
          some ⟨.Master, e.2.2.memory_qubits, []⟩ ∧
        (nodes'.getD e.2.1 default).findNic e.1 =
          some ⟨.Slave, e.2.2.memory_qubits, []⟩ := by
  intro es
  induction es with
  | nil =>
    intro nodes nodes' h e he
    exact absurd he (List.not_mem_nil e)
  | cons e0 rest ih =>
    intro nodes nodes' h e he
    unfold addAllNics at h
    split at h
    · exact Option.noConfusion h
    · rename_i nodes1 h1
      rcases List.mem_cons.mp he with heq | hmem
      · subst heq
        obtain ⟨h2, h3⟩ := addEdgeNics_establishes h1
        exact ⟨addAllNics_preserves h h2, addAllNics_preserves h h3⟩
      · exact ih h e hmem

/-- C7: after the network is constructed from the logical topology,
for every logical edge the master node holds a NIC keyed by the slave
with role Master and the slave node holds a NIC keyed by the master
with role Slave, both created with the memory qubits of that edge. -/
theorem network_new_mirror_nics (lt : LogicalTopology) (pt : PhysicalTopology)
    (nw : Network) (h : Network.new lt pt = some nw) :
    ∀ e ∈ lt.edges,
      (nw.nodes.getD e.1 default).findNic e.2.1 =
        some ⟨.Master, e.2.2.memory_qubits, []⟩ ∧
      (nw.nodes.getD e.2.1 default).findNic e.1 =
        some ⟨.Slave, e.2.2.memory_qubits, []⟩ := by
  unfold Network.new at h
  split at h
  · split at h
    · exact Option.noConfusion h
    · rename_i nodes1 h1
      cases h
      intro e he
      exact addAllNics_establishes h1 e he
  · exact Option.noConfusion h

/-- Witness for C7 on the one-edge logical topology over the star
topology. -/
theorem network_new_mirror_nics_witness :
    ∃ nw, Network.new pairLT starTopo = some nw ∧
      (nw.nodes.getD 0 default).findNic 1 = some ⟨.Master, 3, []⟩ ∧
      (nw.nodes.getD 1 default).findNic 0 = some ⟨.Slave, 3, []⟩ := by
  obtain ⟨nw, hnw⟩ : ∃ nw, Network.new pairLT starTopo = some nw := ⟨_, rfl⟩
  have h := network_new_mirror_nics pairLT starTopo nw hnw (0, 1, ⟨0, 3, 1⟩)
    (by simp [pairLT])
  exact ⟨nw, hnw, h.1, h.2⟩

end QnetSim
